import Mathlib

/-!
Shallow embedding of the TrailBlazer geometry/decision engine
(`src/utils/GeometryEngine.js`) and proofs of the specification claims.

The engine's numeric layer (turf.js: area, centroid, bbox) and the external
Overpass street query are modelled as an explicit environment `TurfEnv`;
the module-global `holeCache` is threaded as explicit state; the status
callback `onStatusUpdate`, the street queries and the error log are
recorded in an explicit event trace.
-/

namespace TrailBlazer

/-- A linear ring: ordered list of (longitude, latitude) pairs. -/
abbrev Coordinate := ℚ × ℚ

abbrev LinearRing := List Coordinate

/-- Coordinates of one polygon: outer ring followed by holes. -/
abbrev PolyCoords := List LinearRing

/-- Bounding box (minLon, minLat, maxLon, maxLat), as produced by turf.bbox. -/
abbrev BBox := ℚ × ℚ × ℚ × ℚ

/-- Cache key: (lat rounded to 5 decimals, lon rounded to 5 decimals,
rounded area); models the string key of `getHoleCacheKey`. -/
abbrev CacheKey := ℤ × ℤ × ℤ

/-- The module-global `holeCache` `Map`, modelled as an association list whose
first matching entry wins; `Map.set` is prepending (a key is only ever set
when absent, so the semantics agree). -/
abbrev Cache := List (CacheKey × Bool)

/-- GeoJSON geometry as dispatched on by `fillBlocks` (`geometry.type`):
Polygon, MultiPolygon, or any other type. -/
inductive Geometry where
  | polygon (coordinates : PolyCoords)
  | multiPolygon (coordinates : List PolyCoords)
  | otherType
  deriving DecidableEq, Repr

/-- Outcome of one Overpass fetch: a parsed JSON with an `elements` array of
the given length, or a network/parse failure (the `catch` branch). -/
inductive OracleResp where
  | elements (count : ℕ)
  | failure
  deriving DecidableEq, Repr

/-- Observable events of one engine run: a status emission
(`onStatusUpdate`), a street-oracle query for a bounding box, or an error
log (`console.error`). -/
inductive Event where
  | status (msg : String)
  | oracleCall (bb : BBox)
  | errorLog (msg : String)
  deriving DecidableEq, Repr

/-- Environment abstracting the external turf.js numeric layer and the
Overpass endpoint:
`ringArea r` models `turf.area(turf.polygon([r]))`,
`ringCentroid r` models `turf.centroid(turf.polygon([r]))` ([lon, lat]),
`ringBBox r` models `turf.bbox(turf.polygon([r]))`, and
`oracle bb` the response to the Overpass query for `bb`. -/
structure TurfEnv where
  ringArea : LinearRing → ℚ
  ringCentroid : LinearRing → ℚ × ℚ
  ringBBox : LinearRing → BBox
  oracle : BBox → OracleResp

/-- The `options` object of `fillBlocks`: `{ skipStreetCheck = false }`. -/
structure Options where
  skipStreetCheck : Bool := false

/-- `holeCache.get` / `holeCache.has`: first matching entry. -/
def cacheGet : Cache → CacheKey → Option Bool
  | [], _ => none
  | (k, b) :: rest, key => if k = key then some b else cacheGet rest key

/-- `holeCache.set`. -/
def cacheSet (c : Cache) (k : CacheKey) (b : Bool) : Cache := (k, b) :: c

/-- `x.toFixed(5)`, as the integer of 5-decimal units (round to nearest). -/
def jsToFixed5 (x : ℚ) : ℤ := ⌊x * 100000 + 1/2⌋

/-- `Math.round`. -/
def jsRound (x : ℚ) : ℤ := ⌊x + 1/2⌋

/-- `getHoleCacheKey(holePoly, area)`: centroid lat/lon rounded to 5
decimal places plus `Math.round(area)`. -/
def getHoleCacheKey (env : TurfEnv) (hole : LinearRing) (area : ℚ) : CacheKey :=
  (jsToFixed5 (env.ringCentroid hole).2, jsToFixed5 (env.ringCentroid hole).1, jsRound area)

/-- The cache key of a hole, with its area as computed by the engine. -/
def holeKey (env : TurfEnv) (hole : LinearRing) : CacheKey :=
  getHoleCacheKey env hole (env.ringArea hole)

/-- One entry of `validHoleData`: `{hole, holeArea, bbox}` (the `holePoly`
field is determined by `hole` and is dropped). -/
structure HoleData where
  hole : LinearRing
  holeArea : ℚ
  bbox : BBox
  deriving DecidableEq, Repr

/-- The size filter of `processPolygonCoordinates`:
`holeArea > 50 && holeArea < 5000000`. -/
def sizeEligible (area : ℚ) : Bool := decide (50 < area) && decide (area < 5000000)

def mkHoleData (env : TurfEnv) (h : LinearRing) : HoleData :=
  ⟨h, env.ringArea h, env.ringBBox h⟩

/-- The holes passing the size filter, in original order. -/
def eligibleHoles (env : TurfEnv) (holes : List LinearRing) : List LinearRing :=
  holes.filter (fun h => sizeEligible (env.ringArea h))

/-- The holes failing the size filter (pushed to `newHoles` immediately),
in original order. -/
def ineligibleHoles (env : TurfEnv) (holes : List LinearRing) : List LinearRing :=
  holes.filter (fun h => !(sizeEligible (env.ringArea h)))

/-- `validHoleData`: the data records of the size-eligible holes. -/
def validHoleData (env : TurfEnv) (holes : List LinearRing) : List HoleData :=
  (eligibleHoles env holes).map (mkHoleData env)

/-- `cachedResults`: the size-eligible holes whose key is in the cache,
paired with the cached answer. -/
def cachedResults (env : TurfEnv) (cache : Cache) (holes : List LinearRing) :
    List (HoleData × Bool) :=
  (validHoleData env holes).filterMap (fun d =>
    match cacheGet cache (getHoleCacheKey env d.hole d.holeArea) with
    | some b => some (d, b)
    | none => none)

/-- `uncachedData`: the size-eligible holes whose key is not in the cache,
paired with their `cacheKey`. -/
def uncachedData (env : TurfEnv) (cache : Cache) (holes : List LinearRing) :
    List (HoleData × CacheKey) :=
  (validHoleData env holes).filterMap (fun d =>
    match cacheGet cache (getHoleCacheKey env d.hole d.holeArea) with
    | some _ => none
    | none => some (d, getHoleCacheKey env d.hole d.holeArea))

/-- `checkIfBlockHasStreets(bbox)`: queries the oracle for the box; a
response with a non-empty `elements` array means streets; on failure the
`catch` branch returns `false` (hardcoded demo-mode fail-safe). The query
itself is recorded as an event. -/
def checkIfBlockHasStreets (env : TurfEnv) (bb : BBox) : Bool × List Event :=
  (match env.oracle bb with
   | .elements n => decide (0 < n)
   | .failure => false,
   [Event.oracleCall bb])

/-- Modelled from the spec: the street check as §4.5 requires it for a
reimplementation — "On network/parse failure: returns a configurable
fail-safe default. This must be an explicit configuration option, not a
hardcoded behavior." Identical to `checkIfBlockHasStreets` except that the
failure branch returns the configured `failSafeDefault`. -/
def checkIfBlockHasStreetsSpec (failSafeDefault : Bool) (env : TurfEnv) (bb : BBox) :
    Bool × List Event :=
  (match env.oracle bb with
   | .elements n => decide (0 < n)
   | .failure => failSafeDefault,
   [Event.oracleCall bb])

/-- The boolean the engine obtains for a bounding box. -/
def oracleAnswer (env : TurfEnv) (bb : BBox) : Bool :=
  (checkIfBlockHasStreets env bb).1

/-- Status message builders (the template literals of the source). -/
def analyzingMsg : Event := .status "Analyzing cleared area geometry..."

def partMsg (i total : ℕ) : Event :=
  .status ("Analyzing polygon part " ++ toString i ++ "/" ++ toString total ++ "...")

def foundMsg (n : ℕ) : Event :=
  .status ("Found " ++ toString n ++ " potential blocks (holes). Checking sizes...")

def noValidMsg : Event := .status "No valid blocks to check."

def usingCachedMsg (n : ℕ) : Event :=
  .status ("Using cached results for " ++ toString n ++ " blocks...")

def checkingMsg (n : ℕ) : Event :=
  .status ("Checking " ++ toString n ++ " new blocks (batch size: 3)...")

def batchMsg (num total size : ℕ) : Event :=
  .status ("Processing batch " ++ toString num ++ "/" ++ toString total ++
    " (" ++ toString size ++ " blocks)...")

def doneMsg (filled kept : ℕ) : Event :=
  .status ("Block analysis complete. Filled: " ++ toString filled ++
    ", Kept: " ++ toString kept)

/-- Result of the batch phase: resolved candidates, the cache after the
writes, and the emitted events. -/
structure BatchOut where
  results : List (HoleData × Bool)
  cache : Cache
  events : List Event
  deriving Repr

/-- `Promise.all(batch.map(...))`: each member queries the oracle and writes
its answer into the cache (the per-member `console.log` lines are not
modelled). The members are recorded in array order. -/
def runBatch (env : TurfEnv) : List (HoleData × CacheKey) → Cache → BatchOut
  | [], cache => ⟨[], cache, []⟩
  | (d, key) :: rest, cache =>
    let r := checkIfBlockHasStreets env d.bbox
    let cache1 := cacheSet cache key r.1
    let out := runBatch env rest cache1
    ⟨(d, r.1) :: out.results, out.cache, r.2 ++ out.events⟩

/-- The batch loop
`for (let i = 0; i < uncachedData.length; i += BATCH_SIZE)` with
`BATCH_SIZE = 3`: slices `uncachedData.slice(i, i + 3)`, emits the
progress message, awaits the batch, accumulates the results. -/
def batchLoop (env : TurfEnv) (uncached : List (HoleData × CacheKey)) (i : ℕ)
    (cache : Cache) : BatchOut :=
  if _h : i < uncached.length then
    let batch := (uncached.drop i).take 3
    let batchNum := i / 3 + 1
    let totalBatches := (uncached.length + 2) / 3
    let b := runBatch env batch cache
    let rest := batchLoop env uncached (i + 3) b.cache
    ⟨b.results ++ rest.results, rest.cache,
      batchMsg batchNum totalBatches batch.length :: (b.events ++ rest.events)⟩
  else ⟨[], cache, []⟩
termination_by uncached.length - i
decreasing_by simp_wf; omega

/-- Result of `processPolygonCoordinates`: the new coordinate array, the
cache after the run, and the emitted events. -/
structure PPCOut where
  coords : PolyCoords
  cache : Cache
  events : List Event
  deriving Repr

/-- `processPolygonCoordinates(coords, onStatusUpdate, skipStreetCheck)`. -/
def processPolygonCoordinates (env : TurfEnv) (skipStreetCheck : Bool)
    (coords : PolyCoords) (cache : Cache) : PPCOut :=
  match coords with
  | [] => ⟨[], cache, []⟩
  | [onlyRing] => ⟨[onlyRing], cache, []⟩
  | outerRing :: holes =>
    let ev1 : List Event :=
      if !skipStreetCheck then [foundMsg holes.length] else []
    let newHoles0 := ineligibleHoles env holes
    let valid := validHoleData env holes
    if valid.isEmpty then
      ⟨outerRing :: newHoles0, cache, ev1 ++ [noValidMsg]⟩
    else
      let cached := cachedResults env cache holes
      let uncached := uncachedData env cache holes
      if skipStreetCheck then
        ⟨outerRing :: newHoles0, cache, ev1⟩
      else
        let ev2 : List Event :=
          if cached.isEmpty then [] else [usingCachedMsg cached.length]
        let bOut : BatchOut :=
          if uncached.isEmpty then ⟨[], cache, []⟩
          else
            let b := batchLoop env uncached 0 cache
            ⟨b.results, b.cache, checkingMsg uncached.length :: b.events⟩
        let allResults := cached ++ bOut.results
        let keptList := (allResults.filter (fun r => r.2)).map (fun r => r.1.hole)
        let filledCount := (allResults.filter (fun r => !r.2)).length
        ⟨outerRing :: (newHoles0 ++ keptList), bOut.cache,
          ev1 ++ ev2 ++ bOut.events ++ [doneMsg filledCount keptList.length]⟩

/-- Result of `fillBlocks`. -/
structure FillOut where
  geometry : Option Geometry
  cache : Cache
  events : List Event
  deriving Repr

/-- The `for (const polyCoords of geometry.coordinates)` loop of the
MultiPolygon branch of `fillBlocks` (counter `i` incremented before the
per-part message, emitted only when `!skip` and more than 5 parts). -/
def multiPolyLoop (env : TurfEnv) (skip : Bool) (total : ℕ) :
    List PolyCoords → ℕ → Cache → List PolyCoords × Cache × List Event
  | [], _, cache => ([], cache, [])
  | polyCoords :: rest, i, cache =>
    let i1 := i + 1
    let ev : List Event :=
      if !skip && decide (5 < total) then [partMsg i1 total] else []
    let p := processPolygonCoordinates env skip polyCoords cache
    let r := multiPolyLoop env skip total rest i1 p.cache
    (p.coords :: r.1, r.2.1, ev ++ p.events ++ r.2.2)

/-- `fillBlocks(geometry, onStatusUpdate, options)`: `none` models a
null/undefined argument; non-Polygon, non-MultiPolygon geometries are
returned unchanged. -/
def fillBlocks (env : TurfEnv) (geometry : Option Geometry) (options : Options)
    (cache : Cache) : FillOut :=
  match geometry with
  | none => ⟨none, cache, []⟩
  | some g =>
    let skip := options.skipStreetCheck
    let ev0 : List Event := if !skip then [analyzingMsg] else []
    match g with
    | .polygon coords =>
      let p := processPolygonCoordinates env skip coords cache
      ⟨some (.polygon p.coords), p.cache, ev0 ++ p.events⟩
    | .multiPolygon polys =>
      let r := multiPolyLoop env skip polys.length polys 0 cache
      ⟨some (.multiPolygon r.1), r.2.1, ev0 ++ r.2.2⟩
    | .otherType => ⟨some .otherType, cache, ev0⟩

/-- Input to `mergeAreas`: a bare geometry or a Feature wrapping one. -/
inductive GeoInput where
  | feature (geometry : Geometry)
  | bare (geometry : Geometry)

/-- `x.type === 'Feature' ? x.geometry : x`. -/
def GeoInput.asGeometry : GeoInput → Geometry
  | .feature g => g
  | .bare g => g

/-- Environment for `mergeAreas`: `turf.union` may return a Feature
(`.ok (some g)` with geometry `g`), return null (`.ok none`), or throw
(`.error`). -/
structure MergeEnv where
  union : Geometry → Geometry → Except Unit (Option Geometry)

/-- `mergeAreas(existingArea, newPolygon)`: absent existing area returns the
new geometry; a union failure is caught, logged, and the existing geometry
is returned. -/
def mergeAreas (menv : MergeEnv) (existingArea : Option GeoInput)
    (newPolygon : GeoInput) : Geometry × List Event :=
  let newGeom := newPolygon.asGeometry
  match existingArea with
  | none => (newGeom, [])
  | some ea =>
    let existingGeom := ea.asGeometry
    match menv.union existingGeom newGeom with
    | .ok (some g) => (g, [])
    | .ok none => (newGeom, [])
    | .error _ => (existingGeom, [.errorLog "Merge failed"])

/-- The bounding boxes of the oracle queries in a trace. -/
def oracleCalls (evs : List Event) : List BBox :=
  evs.filterMap (fun e => match e with | .oracleCall bb => some bb | _ => none)

/-- Modelled from the spec: `getArea` delegates to `turf.area`, which for a
polygon is the outer-ring area minus the hole areas ("holes (whose area is
subtracted from the shape)", §8/C8), summed over the constituents of a
MultiPolygon. -/
def polyCoordsArea (env : TurfEnv) : PolyCoords → ℚ
  | [] => 0
  | outer :: holes => env.ringArea outer - (holes.map env.ringArea).sum

/-- Modelled from the spec: `getArea(geometry) = turf.area(geometry)`. -/
def getArea (env : TurfEnv) : Geometry → ℚ
  | .polygon c => polyCoordsArea env c
  | .multiPolygon ps => (ps.map (polyCoordsArea env)).sum
  | .otherType => 0

/-- The freshly queried results of one run (what the batch phase returns
for the cache misses). -/
def freshResults (env : TurfEnv) (cache : Cache) (holes : List LinearRing) :
    List (HoleData × Bool) :=
  (batchLoop env (uncachedData env cache holes) 0 cache).results

/-- `allResults = [...cachedResults, ...uncachedResults]`. -/
def allResultsOf (env : TurfEnv) (cache : Cache) (holes : List LinearRing) :
    List (HoleData × Bool) :=
  cachedResults env cache holes ++ freshResults env cache holes

/-- The eligible holes the decision phase keeps (street answer `true`), in
decision order; empty in skip mode, which fills every eligible hole. -/
def keptHoles (env : TurfEnv) (skip : Bool) (cache : Cache)
    (holes : List LinearRing) : List LinearRing :=
  if skip then []
  else ((allResultsOf env cache holes).filter (fun r => r.2)).map (fun r => r.1.hole)

/-- Follows the spec's words for C2: skip mode keeps ring 0 and exactly the
size-ineligible holes of every constituent polygon. -/
def dropEligibleCoords (env : TurfEnv) : PolyCoords → PolyCoords
  | [] => []
  | outer :: holes => outer :: ineligibleHoles env holes

/-- Follows the spec's words for C2, per geometry kind. -/
def fillBlocksSkipSpec (env : TurfEnv) : Geometry → Geometry
  | .polygon c => .polygon (dropEligibleCoords env c)
  | .multiPolygon ps => .multiPolygon (ps.map (dropEligibleCoords env))
  | .otherType => .otherType

/-- Partition of a list into consecutive groups of 3 (the last possibly
shorter). -/
def chunksOf3 : List α → List (List α)
  | [] => []
  | a :: rest => (a :: rest).take 3 :: chunksOf3 ((a :: rest).drop 3)
termination_by l => l.length
decreasing_by simp; omega

/-- The event trace of the batch phase, written group-structurally: each
group contributes its progress message followed by its oracle queries. -/
def chunkEvents (env : TurfEnv) (total num : ℕ) :
    List (HoleData × CacheKey) → List Event
  | [] => []
  | a :: rest =>
    batchMsg num total ((a :: rest).take 3).length ::
      (((a :: rest).take 3).map (fun dk => Event.oracleCall dk.1.bbox) ++
        chunkEvents env total (num + 1) ((a :: rest).drop 3))
termination_by l => l.length
decreasing_by simp; omega

/-! ### Basic lemmas about the cache, the trace, and the batch phase -/

theorem cacheGet_append (l c : Cache) (k : CacheKey) :
    cacheGet (l ++ c) k =
      match cacheGet l k with
      | some b => some b
      | none => cacheGet c k := by
  induction l with
  | nil => simp [cacheGet]
  | cons e rest ih =>
    by_cases h : e.1 = k
    · simp [cacheGet, h]
    · simp only [List.cons_append, cacheGet, h, if_false]
      exact ih

theorem oracleCalls_nil : oracleCalls [] = [] := rfl

theorem oracleCalls_append (l1 l2 : List Event) :
    oracleCalls (l1 ++ l2) = oracleCalls l1 ++ oracleCalls l2 :=
  List.filterMap_append l1 l2 _

theorem oracleCalls_cons_status (msg : String) (evs : List Event) :
    oracleCalls (.status msg :: evs) = oracleCalls evs := rfl

theorem oracleCalls_cons_errorLog (msg : String) (evs : List Event) :
    oracleCalls (.errorLog msg :: evs) = oracleCalls evs := rfl

theorem oracleCalls_cons_call (bb : BBox) (evs : List Event) :
    oracleCalls (.oracleCall bb :: evs) = bb :: oracleCalls evs := rfl

theorem oracleCalls_cons_batchMsg (num total size : ℕ) (evs : List Event) :
    oracleCalls (batchMsg num total size :: evs) = oracleCalls evs := rfl

theorem oracleCalls_map_call (l : List (HoleData × CacheKey)) :
    oracleCalls (l.map (fun dk => Event.oracleCall dk.1.bbox)) =
      l.map (fun dk => dk.1.bbox) := by
  induction l with
  | nil => rfl
  | cons a rest ih =>
    simp only [List.map_cons, oracleCalls_cons_call, ih]

theorem runBatch_results (env : TurfEnv) (u : List (HoleData × CacheKey)) (c : Cache) :
    (runBatch env u c).results = u.map (fun dk => (dk.1, oracleAnswer env dk.1.bbox)) := by
  induction u generalizing c with
  | nil => simp [runBatch]
  | cons dk rest ih => simp [runBatch, ih, oracleAnswer]

theorem runBatch_cache (env : TurfEnv) (u : List (HoleData × CacheKey)) (c : Cache) :
    (runBatch env u c).cache =
      (u.map (fun dk => (dk.2, oracleAnswer env dk.1.bbox))).reverse ++ c := by
  induction u generalizing c with
  | nil => simp [runBatch]
  | cons dk rest ih => simp [runBatch, ih, oracleAnswer, cacheSet]

theorem runBatch_events (env : TurfEnv) (u : List (HoleData × CacheKey)) (c : Cache) :
    (runBatch env u c).events = u.map (fun dk => Event.oracleCall dk.1.bbox) := by
  induction u generalizing c with
  | nil => simp [runBatch]
  | cons dk rest ih => simp [runBatch, ih, checkIfBlockHasStreets]

theorem chunkEvents_nil (env : TurfEnv) (total num : ℕ) :
    chunkEvents env total num [] = [] := by
  rw [chunkEvents]

theorem chunkEvents_cons (env : TurfEnv) (total num : ℕ) (a : HoleData × CacheKey)
    (rest : List (HoleData × CacheKey)) :
    chunkEvents env total num (a :: rest) =
      batchMsg num total ((a :: rest).take 3).length ::
        (((a :: rest).take 3).map (fun dk => Event.oracleCall dk.1.bbox) ++
          chunkEvents env total (num + 1) ((a :: rest).drop 3)) := by
  rw [chunkEvents]

theorem chunksOf3_nil {α : Type} : chunksOf3 ([] : List α) = [] := by
  rw [chunksOf3]

theorem chunksOf3_cons {α : Type} (a : α) (rest : List α) :
    chunksOf3 (a :: rest) = (a :: rest).take 3 :: chunksOf3 ((a :: rest).drop 3) := by
  rw [chunksOf3]

theorem drop_add_three {α : Type} (u : List α) (i : ℕ) :
    u.drop (i + 3) = (u.drop i).drop 3 := by
  rw [List.drop_drop]

theorem batchLoop_results (env : TurfEnv) (u : List (HoleData × CacheKey)) (i : ℕ)
    (c : Cache) :
    (batchLoop env u i c).results =
      (u.drop i).map (fun dk => (dk.1, oracleAnswer env dk.1.bbox)) := by
  suffices H : ∀ (k j : ℕ) (c : Cache), u.length - j ≤ k →
      (batchLoop env u j c).results =
        (u.drop j).map (fun dk => (dk.1, oracleAnswer env dk.1.bbox)) from
    H (u.length - i) i c le_rfl
  intro k
  induction k with
  | zero =>
    intro j c hk
    have h : ¬ j < u.length := by omega
    rw [batchLoop]
    simp only [h, dite_false]
    rw [List.drop_eq_nil_of_le (by omega)]
    rfl
  | succ k ih =>
    intro j c hk
    by_cases h : j < u.length
    · rw [batchLoop]
      simp only [h, dite_true, runBatch_results]
      rw [ih (j + 3) _ (by omega)]
      rw [← List.map_append]
      congr 1
      rw [drop_add_three, List.take_append_drop]
    · rw [batchLoop]
      simp only [h, dite_false]
      rw [List.drop_eq_nil_of_le (by omega)]
      rfl

theorem batchLoop_cache (env : TurfEnv) (u : List (HoleData × CacheKey)) (i : ℕ)
    (c : Cache) :
    (batchLoop env u i c).cache =
      ((u.drop i).map (fun dk => (dk.2, oracleAnswer env dk.1.bbox))).reverse ++ c := by
  suffices H : ∀ (k j : ℕ) (c : Cache), u.length - j ≤ k →
      (batchLoop env u j c).cache =
        ((u.drop j).map (fun dk => (dk.2, oracleAnswer env dk.1.bbox))).reverse ++ c from
    H (u.length - i) i c le_rfl
  intro k
  induction k with
  | zero =>
    intro j c hk
    have h : ¬ j < u.length := by omega
    rw [batchLoop]
    simp only [h, dite_false]
    rw [List.drop_eq_nil_of_le (by omega)]
    simp
  | succ k ih =>
    intro j c hk
    by_cases h : j < u.length
    · rw [batchLoop]
      simp only [h, dite_true]
      rw [ih (j + 3) _ (by omega), runBatch_cache]
      rw [← List.append_assoc, ← List.reverse_append, ← List.map_append]
      rw [drop_add_three, List.take_append_drop]
    · rw [batchLoop]
      simp only [h, dite_false]
      rw [List.drop_eq_nil_of_le (by omega)]
      simp

theorem batchLoop_events (env : TurfEnv) (u : List (HoleData × CacheKey)) (i : ℕ)
    (c : Cache) :
    (batchLoop env u i c).events =
      chunkEvents env ((u.length + 2) / 3) (i / 3 + 1) (u.drop i) := by
  suffices H : ∀ (k j : ℕ) (c : Cache), u.length - j ≤ k →
      (batchLoop env u j c).events =
        chunkEvents env ((u.length + 2) / 3) (j / 3 + 1) (u.drop j) from
    H (u.length - i) i c le_rfl
  intro k
  induction k with
  | zero =>
    intro j c hk
    have h : ¬ j < u.length := by omega
    rw [batchLoop]
    simp only [h, dite_false]
    rw [List.drop_eq_nil_of_le (by omega), chunkEvents_nil]
  | succ k ih =>
    intro j c hk
    by_cases h : j < u.length
    · rw [batchLoop]
      simp only [h, dite_true, runBatch_events]
      rw [ih (j + 3) _ (by omega)]
      obtain ⟨a, rest, hdrop⟩ : ∃ a rest, u.drop j = a :: rest :=
        List.exists_cons_of_ne_nil (by
          simp only [ne_eq, List.drop_eq_nil_iff]
          omega)
      rw [drop_add_three, hdrop, chunkEvents_cons]
      have hnum : (j + 3) / 3 + 1 = j / 3 + 1 + 1 := by omega
      rw [hnum]
    · rw [batchLoop]
      simp only [h, dite_false]
      rw [List.drop_eq_nil_of_le (by omega), chunkEvents_nil]

theorem oracleCalls_chunkEvents (env : TurfEnv) (total : ℕ)
    (l : List (HoleData × CacheKey)) (num : ℕ) :
    oracleCalls (chunkEvents env total num l) = l.map (fun dk => dk.1.bbox) := by
  suffices H : ∀ (k : ℕ) (l : List (HoleData × CacheKey)) (num : ℕ), l.length ≤ k →
      oracleCalls (chunkEvents env total num l) = l.map (fun dk => dk.1.bbox) from
    H l.length l num le_rfl
  intro k
  induction k with
  | zero =>
    intro l num hl
    have : l = [] := List.eq_nil_of_length_eq_zero (by omega)
    subst this
    rw [chunkEvents_nil]
    rfl
  | succ k ih =>
    intro l num hl
    match l with
    | [] =>
      rw [chunkEvents_nil]
      rfl
    | a :: rest =>
      rw [chunkEvents_cons, oracleCalls_cons_batchMsg, oracleCalls_append,
        oracleCalls_map_call]
      have hlen : ((a :: rest).drop 3).length ≤ k := by
        simp only [List.length_drop, List.length_cons]
        simp only [List.length_cons] at hl
        omega
      rw [ih _ _ hlen, ← List.map_append, List.take_append_drop]

theorem batchLoop_calls (env : TurfEnv) (u : List (HoleData × CacheKey)) (c : Cache) :
    oracleCalls (batchLoop env u 0 c).events = u.map (fun dk => dk.1.bbox) := by
  rw [batchLoop_events]
  simp only [List.drop_zero]
  exact oracleCalls_chunkEvents env _ u 1

/-! ### Structure of `processPolygonCoordinates` -/

theorem ppc_nil (env : TurfEnv) (skip : Bool) (cache : Cache) :
    processPolygonCoordinates env skip [] cache = ⟨[], cache, []⟩ := rfl

theorem ppc_single (env : TurfEnv) (skip : Bool) (cache : Cache) (r : LinearRing) :
    processPolygonCoordinates env skip [r] cache = ⟨[r], cache, []⟩ := rfl

theorem validHoleData_nil (env : TurfEnv) : validHoleData env [] = [] := rfl

theorem uncachedData_of_valid_empty (env : TurfEnv) (cache : Cache)
    (holes : List LinearRing) (hv : (validHoleData env holes).isEmpty = true) :
    uncachedData env cache holes = [] := by
  rw [uncachedData, List.isEmpty_iff.mp hv]
  rfl

theorem cachedResults_of_valid_empty (env : TurfEnv) (cache : Cache)
    (holes : List LinearRing) (hv : (validHoleData env holes).isEmpty = true) :
    cachedResults env cache holes = [] := by
  rw [cachedResults, List.isEmpty_iff.mp hv]
  rfl

theorem batchLoop_nil (env : TurfEnv) (i : ℕ) (c : Cache) :
    batchLoop env [] i c = ⟨[], c, []⟩ := by
  rw [batchLoop]
  simp

theorem freshResults_eq (env : TurfEnv) (cache : Cache) (holes : List LinearRing) :
    freshResults env cache holes =
      (uncachedData env cache holes).map (fun dk => (dk.1, oracleAnswer env dk.1.bbox)) := by
  rw [freshResults, batchLoop_results]
  simp

theorem ppc_coords (env : TurfEnv) (skip : Bool) (cache : Cache) (o : LinearRing)
    (holes : List LinearRing) :
    (processPolygonCoordinates env skip (o :: holes) cache).coords =
      o :: (ineligibleHoles env holes ++ keptHoles env skip cache holes) := by
  match holes with
  | [] =>
    rw [ppc_single]
    simp [ineligibleHoles, keptHoles, allResultsOf, cachedResults, freshResults,
      uncachedData, validHoleData, eligibleHoles, batchLoop_nil]
  | h :: t =>
    by_cases hv : (validHoleData env (h :: t)).isEmpty
    · have hc := cachedResults_of_valid_empty env cache (h :: t) hv
      have hu := uncachedData_of_valid_empty env cache (h :: t) hv
      simp only [processPolygonCoordinates, hv, if_true]
      simp [keptHoles, allResultsOf, hc, freshResults, hu, batchLoop_nil]
    · simp only [processPolygonCoordinates, hv, if_false, Bool.false_eq_true]
      by_cases hs : skip
      · subst hs
        simp [keptHoles]
      · have hs' : skip = false := by revert hs; cases skip <;> simp
        subst hs'
        simp only [Bool.false_eq_true, if_false]
        by_cases hu : (uncachedData env cache (h :: t)).isEmpty
        · rw [List.isEmpty_iff.mp hu]
          simp [keptHoles, allResultsOf, freshResults, List.isEmpty_iff.mp hu,
            batchLoop_nil]
        · simp only [hu, if_false, Bool.false_eq_true]
          simp [keptHoles, allResultsOf, freshResults]

theorem ppc_cache (env : TurfEnv) (skip : Bool) (cache : Cache) (o : LinearRing)
    (holes : List LinearRing) :
    (processPolygonCoordinates env skip (o :: holes) cache).cache =
      if skip then cache
      else ((uncachedData env cache holes).map
        (fun dk => (dk.2, oracleAnswer env dk.1.bbox))).reverse ++ cache := by
  match holes with
  | [] =>
    rw [ppc_single]
    simp [uncachedData, validHoleData, eligibleHoles]
  | h :: t =>
    by_cases hv : (validHoleData env (h :: t)).isEmpty
    · have hu := uncachedData_of_valid_empty env cache (h :: t) hv
      simp only [processPolygonCoordinates, hv, if_true]
      simp [hu]
    · simp only [processPolygonCoordinates, hv, if_false, Bool.false_eq_true]
      by_cases hs : skip
      · subst hs
        simp
      · have hs' : skip = false := by revert hs; cases skip <;> simp
        subst hs'
        simp only [Bool.false_eq_true, if_false]
        by_cases hu : (uncachedData env cache (h :: t)).isEmpty
        · rw [List.isEmpty_iff.mp hu]
          simp [List.isEmpty_iff.mp hu]
        · simp only [hu, if_false, Bool.false_eq_true]
          rw [batchLoop_cache]
          simp

theorem ppc_calls (env : TurfEnv) (skip : Bool) (cache : Cache) (o : LinearRing)
    (holes : List LinearRing) :
    oracleCalls (processPolygonCoordinates env skip (o :: holes) cache).events =
      if skip then [] else (uncachedData env cache holes).map (fun dk => dk.1.bbox) := by
  match holes with
  | [] =>
    rw [ppc_single]
    simp [oracleCalls_nil, uncachedData, validHoleData, eligibleHoles]
  | h :: t =>
    by_cases hv : (validHoleData env (h :: t)).isEmpty
    · have hu := uncachedData_of_valid_empty env cache (h :: t) hv
      simp only [processPolygonCoordinates, hv, if_true]
      by_cases hs : skip <;>
        simp [hs, hu, oracleCalls_append, foundMsg, noValidMsg,
          oracleCalls_cons_status, oracleCalls_nil]
    · simp only [processPolygonCoordinates, hv, if_false, Bool.false_eq_true]
      by_cases hs : skip
      · subst hs
        simp [oracleCalls_nil]
      · have hs' : skip = false := by revert hs; cases skip <;> simp
        subst hs'
        simp only [Bool.false_eq_true, if_false]
        by_cases hu : (uncachedData env cache (h :: t)).isEmpty
        · rw [List.isEmpty_iff.mp hu]
          simp only [List.isEmpty_iff.mp hu, if_true, List.isEmpty_nil]
          by_cases hc : (cachedResults env cache (h :: t)).isEmpty <;>
            simp [hc, oracleCalls_append, foundMsg, usingCachedMsg, doneMsg,
              oracleCalls_cons_status, oracleCalls_nil]
        · simp only [hu, if_false, Bool.false_eq_true]
          by_cases hc : (cachedResults env cache (h :: t)).isEmpty <;>
          · simp only [hc, if_true, if_false]
            simp [oracleCalls_append, foundMsg, usingCachedMsg, checkingMsg, doneMsg,
              oracleCalls_cons_status, oracleCalls_nil, batchLoop_calls]

/-! ### Membership lemmas -/

theorem mem_eligibleHoles {env : TurfEnv} {holes : List LinearRing} {h : LinearRing} :
    h ∈ eligibleHoles env holes ↔
      h ∈ holes ∧ sizeEligible (env.ringArea h) = true := by
  simp [eligibleHoles, List.mem_filter]

theorem mem_validHoleData {env : TurfEnv} {holes : List LinearRing} {d : HoleData}
    (hd : d ∈ validHoleData env holes) :
    d.hole ∈ eligibleHoles env holes ∧ d = mkHoleData env d.hole := by
  rw [validHoleData, List.mem_map] at hd
  obtain ⟨h, hh, rfl⟩ := hd
  exact ⟨hh, rfl⟩

theorem mem_cachedResults {env : TurfEnv} {cache : Cache} {holes : List LinearRing}
    {d : HoleData} {b : Bool} (h : (d, b) ∈ cachedResults env cache holes) :
    d ∈ validHoleData env holes ∧
      cacheGet cache (getHoleCacheKey env d.hole d.holeArea) = some b := by
  rw [cachedResults, List.mem_filterMap] at h
  obtain ⟨a, ha, hfa⟩ := h
  split at hfa
  · cases hfa
    constructor
    · exact ha
    · assumption
  · cases hfa

theorem mem_uncachedData {env : TurfEnv} {cache : Cache} {holes : List LinearRing}
    {d : HoleData} {k : CacheKey} (h : (d, k) ∈ uncachedData env cache holes) :
    d ∈ validHoleData env holes ∧
      k = getHoleCacheKey env d.hole d.holeArea ∧
      cacheGet cache k = none := by
  rw [uncachedData, List.mem_filterMap] at h
  obtain ⟨a, ha, hfa⟩ := h
  split at hfa
  · cases hfa
  · cases hfa
    refine ⟨ha, rfl, ?_⟩
    assumption

theorem mem_keptHoles {env : TurfEnv} {skip : Bool} {cache : Cache}
    {holes : List LinearRing} {r : LinearRing} (h : r ∈ keptHoles env skip cache holes) :
    r ∈ eligibleHoles env holes := by
  rw [keptHoles] at h
  split at h
  · cases h
  · rw [List.mem_map] at h
    obtain ⟨⟨d, b⟩, hmem, rfl⟩ := h
    have hall : (d, b) ∈ allResultsOf env cache holes := (List.mem_filter.mp hmem).1
    rw [allResultsOf, List.mem_append] at hall
    rcases hall with hc | hf
    · exact (mem_validHoleData (mem_cachedResults hc).1).1
    · rw [freshResults_eq, List.mem_map] at hf
      obtain ⟨dk, hdk, heq⟩ := hf
      have hd : dk.1 ∈ validHoleData env holes := by
        obtain ⟨d', k'⟩ := dk
        exact (mem_uncachedData hdk).1
      cases heq
      exact (mem_validHoleData hd).1

theorem cacheGet_isSome_of_mem {l : Cache} {k : CacheKey} {b : Bool}
    (h : (k, b) ∈ l) : (cacheGet l k).isSome = true := by
  induction l with
  | nil => cases h
  | cons e rest ih =>
    by_cases he : e.1 = k
    · simp [cacheGet, he]
    · rcases List.mem_cons.mp h with rfl | hmem
      · exact absurd rfl he
      · simp only [cacheGet, he, if_false]
        exact ih hmem

/-- After a strict (non-skip) run, the key of every size-eligible hole is
present in the cache. -/
theorem holeKey_isSome_final (env : TurfEnv) (cache : Cache) (o : LinearRing)
    (holes : List LinearRing) {h : LinearRing} (he : h ∈ eligibleHoles env holes) :
    (cacheGet (processPolygonCoordinates env false (o :: holes) cache).cache
       (holeKey env h)).isSome = true := by
  rw [ppc_cache]
  simp only [Bool.false_eq_true, if_false]
  cases hcg : cacheGet cache (holeKey env h) with
  | some b =>
    rw [cacheGet_append]
    cases hX : cacheGet (((uncachedData env cache holes).map
        (fun dk => (dk.2, oracleAnswer env dk.1.bbox))).reverse) (holeKey env h) <;>
      simp [hX, hcg]
  | none =>
    have hmem : (mkHoleData env h, holeKey env h) ∈ uncachedData env cache holes := by
      rw [uncachedData, List.mem_filterMap]
      refine ⟨mkHoleData env h, List.mem_map_of_mem (mkHoleData env) he, ?_⟩
      have : getHoleCacheKey env (mkHoleData env h).hole (mkHoleData env h).holeArea =
          holeKey env h := rfl
      rw [this, hcg]
    have hwr : (holeKey env h, oracleAnswer env (mkHoleData env h).bbox) ∈
        ((uncachedData env cache holes).map
          (fun dk => (dk.2, oracleAnswer env dk.1.bbox))).reverse ++ cache := by
      rw [List.mem_append, List.mem_reverse, List.mem_map]
      exact Or.inl ⟨(mkHoleData env h, holeKey env h), hmem, rfl⟩
    exact cacheGet_isSome_of_mem hwr

/-! ### Sub-permutation facts for the area claim -/

theorem cachedResults_map_fst (env : TurfEnv) (cache : Cache) (holes : List LinearRing) :
    (cachedResults env cache holes).map Prod.fst =
      (validHoleData env holes).filter
        (fun d => (cacheGet cache (getHoleCacheKey env d.hole d.holeArea)).isSome) := by
  rw [cachedResults]
  induction validHoleData env holes with
  | nil => rfl
  | cons d rest ih =>
    cases hcg : cacheGet cache (getHoleCacheKey env d.hole d.holeArea) with
    | some b => simp [List.filterMap_cons, List.filter_cons, hcg, ih]
    | none => simp [List.filterMap_cons, List.filter_cons, hcg, ih]

theorem uncachedData_map_fst (env : TurfEnv) (cache : Cache) (holes : List LinearRing) :
    (uncachedData env cache holes).map Prod.fst =
      (validHoleData env holes).filter
        (fun d => !(cacheGet cache (getHoleCacheKey env d.hole d.holeArea)).isSome) := by
  rw [uncachedData]
  induction validHoleData env holes with
  | nil => rfl
  | cons d rest ih =>
    cases hcg : cacheGet cache (getHoleCacheKey env d.hole d.holeArea) with
    | some b => simp [List.filterMap_cons, List.filter_cons, hcg, ih]
    | none => simp [List.filterMap_cons, List.filter_cons, hcg, ih]

theorem allResultsOf_holes_perm (env : TurfEnv) (cache : Cache)
    (holes : List LinearRing) :
    ((allResultsOf env cache holes).map (fun r => r.1.hole)).Perm
      (eligibleHoles env holes) := by
  have h1 : (allResultsOf env cache holes).map (fun r => r.1.hole) =
      ((cachedResults env cache holes).map Prod.fst ++
        (uncachedData env cache holes).map Prod.fst).map HoleData.hole := by
    rw [allResultsOf, freshResults_eq]
    simp only [List.map_map, List.map_append]
    rfl
  rw [h1, cachedResults_map_fst, uncachedData_map_fst]
  have h2 := List.filter_append_perm
    (fun d => (cacheGet cache (getHoleCacheKey env d.hole d.holeArea)).isSome)
    (validHoleData env holes)
  have h3 := h2.map HoleData.hole
  refine h3.trans ?_
  rw [validHoleData, List.map_map]
  have : HoleData.hole ∘ mkHoleData env = id := rfl
  rw [this, List.map_id]

theorem keptHoles_subperm (env : TurfEnv) (skip : Bool) (cache : Cache)
    (holes : List LinearRing) :
    (keptHoles env skip cache holes).Subperm (eligibleHoles env holes) := by
  rw [keptHoles]
  split
  · exact List.nil_subperm
  · have hsub : ((allResultsOf env cache holes).filter (fun r => r.2)).Sublist
        (allResultsOf env cache holes) := List.filter_sublist _
    have hsub2 := hsub.map (fun r : HoleData × Bool => r.1.hole)
    exact hsub2.subperm.trans (allResultsOf_holes_perm env cache holes).subperm

theorem outHoles_subperm (env : TurfEnv) (skip : Bool) (cache : Cache)
    (holes : List LinearRing) :
    (ineligibleHoles env holes ++ keptHoles env skip cache holes).Subperm holes := by
  have h1 : (ineligibleHoles env holes ++ keptHoles env skip cache holes).Subperm
      (ineligibleHoles env holes ++ eligibleHoles env holes) :=
    (List.subperm_append_left _).mpr (keptHoles_subperm env skip cache holes)
  refine h1.trans ?_
  have h2 : (ineligibleHoles env holes ++ eligibleHoles env holes).Perm
      (eligibleHoles env holes ++ ineligibleHoles env holes) := List.perm_append_comm
  refine h2.subperm.trans ?_
  exact (List.filter_append_perm _ holes).subperm

theorem subperm_sum_le {l₁ l₂ : List LinearRing} (f : LinearRing → ℚ)
    (h : l₁.Subperm l₂) (hn : ∀ r, 0 ≤ f r) :
    (l₁.map f).sum ≤ (l₂.map f).sum := by
  obtain ⟨l, hperm, hsub⟩ := h
  have he : (l.map f).sum = (l₁.map f).sum := (hperm.map f).sum_eq
  rw [← he]
  exact (hsub.map f).sum_le_sum (by
    intro a ha
    rw [List.mem_map] at ha
    obtain ⟨r, _, rfl⟩ := ha
    exact hn r)

/-! ### Full event trace of a strict run, and the skip-mode run -/

theorem validHoleData_ne_nil_of_not_empty {env : TurfEnv} {holes : List LinearRing}
    (hv : (validHoleData env holes).isEmpty = false) : holes ≠ [] := by
  intro h
  subst h
  simp [validHoleData, eligibleHoles] at hv

theorem ppc_events (env : TurfEnv) (cache : Cache) (o : LinearRing)
    (holes : List LinearRing) (hv : (validHoleData env holes).isEmpty = false) :
    (processPolygonCoordinates env false (o :: holes) cache).events =
      foundMsg holes.length ::
        ((if (cachedResults env cache holes).isEmpty then []
          else [usingCachedMsg (cachedResults env cache holes).length]) ++
          ((if (uncachedData env cache holes).isEmpty then []
            else checkingMsg (uncachedData env cache holes).length ::
              chunkEvents env (((uncachedData env cache holes).length + 2) / 3) 1
                (uncachedData env cache holes)) ++
            [doneMsg ((allResultsOf env cache holes).filter (fun r => !r.2)).length
              ((allResultsOf env cache holes).filter (fun r => r.2)).length])) := by
  match holes with
  | [] => simp [validHoleData, eligibleHoles] at hv
  | h :: t =>
    simp only [processPolygonCoordinates, hv, Bool.false_eq_true, if_false,
      Bool.not_false, if_true]
    by_cases hu : (uncachedData env cache (h :: t)).isEmpty
    · have hue := List.isEmpty_iff.mp hu
      simp only [hu, if_true, hue]
      have hfr : freshResults env cache (h :: t) = [] := by
        rw [freshResults_eq, hue]
        rfl
      simp [allResultsOf, hfr, List.append_assoc, List.singleton_append,
        List.length_map, hue]
    · simp only [hu, if_false, Bool.false_eq_true]
      have hfr : (batchLoop env (uncachedData env cache (h :: t)) 0 cache).results =
          freshResults env cache (h :: t) := rfl
      rw [batchLoop_events]
      simp [allResultsOf, hfr, List.append_assoc, List.singleton_append,
        List.length_map]

theorem ppc_skip_parts (env : TurfEnv) (cache : Cache) (coords : PolyCoords) :
    (processPolygonCoordinates env true coords cache).coords =
        dropEligibleCoords env coords ∧
      (processPolygonCoordinates env true coords cache).cache = cache ∧
      ∀ e ∈ (processPolygonCoordinates env true coords cache).events, e = noValidMsg := by
  match coords with
  | [] => exact ⟨rfl, rfl, by intro e he; cases he⟩
  | [r] =>
    refine ⟨?_, rfl, by intro e he; cases he⟩
    simp [ppc_single, dropEligibleCoords, ineligibleHoles]
  | o :: h :: t =>
    by_cases hv : (validHoleData env (h :: t)).isEmpty <;>
      simp [processPolygonCoordinates, hv, dropEligibleCoords]

theorem multiPolyLoop_skip (env : TurfEnv) (total : ℕ) :
    ∀ (polys : List PolyCoords) (i : ℕ) (cache : Cache),
      (multiPolyLoop env true total polys i cache).1 =
          polys.map (dropEligibleCoords env) ∧
        (multiPolyLoop env true total polys i cache).2.1 = cache ∧
        ∀ e ∈ (multiPolyLoop env true total polys i cache).2.2, e = noValidMsg := by
  intro polys
  induction polys with
  | nil => intro i cache; exact ⟨rfl, rfl, by intro e he; cases he⟩
  | cons p rest ih =>
    intro i cache
    obtain ⟨hc, hcache, hev⟩ := ppc_skip_parts env cache p
    obtain ⟨ihc, ihcache, ihev⟩ :=
      ih (i + 1) (processPolygonCoordinates env true p cache).cache
    refine ⟨?_, ?_, ?_⟩
    · simp only [multiPolyLoop]
      rw [hc, ihc, List.map_cons]
    · simp only [multiPolyLoop]
      rw [ihcache, hcache]
    · intro e he
      simp only [multiPolyLoop, Bool.not_true, Bool.false_and, Bool.false_eq_true,
        if_false, List.nil_append, List.mem_append] at he
      rcases he with h1 | h2
      · exact hev e h1
      · exact ihev e h2

/-! ### Area lemmas -/

theorem ppc_area (env : TurfEnv) (skip : Bool) (cache : Cache)
    (hn : ∀ r, 0 ≤ env.ringArea r) (coords : PolyCoords) :
    polyCoordsArea env coords ≤
      polyCoordsArea env (processPolygonCoordinates env skip coords cache).coords := by
  match coords with
  | [] => exact le_refl _
  | o :: holes =>
    rw [ppc_coords]
    simp only [polyCoordsArea]
    apply sub_le_sub_left
    exact subperm_sum_le env.ringArea (outHoles_subperm env skip cache holes) hn

theorem multiPolyLoop_area (env : TurfEnv) (skip : Bool) (total : ℕ)
    (hn : ∀ r, 0 ≤ env.ringArea r) :
    ∀ (polys : List PolyCoords) (i : ℕ) (cache : Cache),
      (polys.map (polyCoordsArea env)).sum ≤
        (((multiPolyLoop env skip total polys i cache).1).map (polyCoordsArea env)).sum := by
  intro polys
  induction polys with
  | nil => intro i cache; exact le_refl _
  | cons p rest ih =>
    intro i cache
    simp only [multiPolyLoop, List.map_cons, List.sum_cons]
    exact add_le_add (ppc_area env skip cache hn p)
      (ih (i + 1) (processPolygonCoordinates env skip p cache).cache)

/-! ### Concrete fixtures used by witnesses and counterexamples -/

/-- A closed square outer ring. -/
def sqRing : LinearRing := [(0, 0), (4, 0), (4, 4), (0, 4), (0, 0)]

/-- A closed triangular hole ring. -/
def holeRing : LinearRing := [(1, 1), (2, 1), (2, 2), (1, 1)]

/-- A second, geometrically distinct hole ring. -/
def holeRing2 : LinearRing := [(2, 2), (3, 2), (3, 3), (2, 2)]

/-- Environment: every hole has area 100 m² and the oracle reports no
street elements. -/
def envNoStreets : TurfEnv :=
  ⟨fun _ => 100, fun _ => (0, 0), fun _ => (0, 0, 1, 1), fun _ => .elements 0⟩

/-- Environment: every hole has area 100 m² and the oracle reports one
street element. -/
def envStreets : TurfEnv :=
  ⟨fun _ => 100, fun _ => (0, 0), fun _ => (0, 0, 1, 1), fun _ => .elements 1⟩

/-- Environment: every hole has area 100 m² and every oracle query fails. -/
def envFailure : TurfEnv :=
  ⟨fun _ => 100, fun _ => (0, 0), fun _ => (0, 0, 1, 1), fun _ => .failure⟩

/-- Environment with all areas zero (trivially nonnegative). -/
def envZero : TurfEnv :=
  ⟨fun _ => 0, fun _ => (0, 0), fun _ => (0, 0, 0, 0), fun _ => .elements 0⟩

/-- Environment distinguishing `holeRing2` from every other ring, with
street answers everywhere. -/
def envTwo : TurfEnv :=
  ⟨fun r => if r = holeRing2 then 200 else 100,
   fun r => if r = holeRing2 then (2, 2) else (0, 0),
   fun r => if r = holeRing2 then (2, 2, 3, 3) else (0, 0, 1, 1),
   fun _ => .elements 1⟩

/-- Merge environment whose union operator always throws. -/
def menvFail : MergeEnv := ⟨fun _ _ => .error ()⟩

/-- `keptHoles` in strict mode, with the batch loop replaced by its proved
pointwise form (usable by `decide` on concrete inputs). -/
theorem keptHoles_eval (env : TurfEnv) (cache : Cache) (holes : List LinearRing) :
    keptHoles env false cache holes =
      ((cachedResults env cache holes ++
        (uncachedData env cache holes).map
          (fun dk => (dk.1, oracleAnswer env dk.1.bbox))).filter (fun r => r.2)).map
        (fun r => r.1.hole) := by
  rw [keptHoles, allResultsOf, freshResults_eq]
  simp

theorem oracleCalls_eq_nil_of_noValid {evs : List Event}
    (h : ∀ e ∈ evs, e = noValidMsg) : oracleCalls evs = [] := by
  induction evs with
  | nil => rfl
  | cons e rest ih =>
    have he : e = noValidMsg := h e (List.mem_cons_self e rest)
    subst he
    rw [show oracleCalls (noValidMsg :: rest) = oracleCalls rest from rfl]
    exact ih (fun e hmem => h e (List.mem_cons_of_mem _ hmem))

/-! ### Claim theorems -/

/-- C1: `fillBlocks` (through `processPolygonCoordinates`) consults the
Street Oracle only for holes whose area lies strictly between 50 m² and
5,000,000 m²: the holes failing the size band are retained in the output
(in order, unchanged) and the oracle queries of a run are exactly the
bounding boxes of the size-eligible cache-miss holes, each of which
satisfies `50 < area < 5000000`. -/
theorem claim_C1 (env : TurfEnv) (skip : Bool) (cache : Cache) (o : LinearRing)
    (holes : List LinearRing) :
    (ineligibleHoles env holes).Sublist
        (processPolygonCoordinates env skip (o :: holes) cache).coords ∧
      oracleCalls (processPolygonCoordinates env skip (o :: holes) cache).events =
        (if skip then [] else (uncachedData env cache holes).map (fun dk => dk.1.bbox)) ∧
      ∀ d ∈ uncachedData env cache holes,
        d.1.hole ∈ holes ∧ d.1.bbox = env.ringBBox d.1.hole ∧
          50 < env.ringArea d.1.hole ∧ env.ringArea d.1.hole < 5000000 := by
  refine ⟨?_, ppc_calls env skip cache o holes, ?_⟩
  · rw [ppc_coords]
    exact (List.sublist_append_left _ _).cons o
  · intro d hd
    obtain ⟨hvalid, -, -⟩ := mem_uncachedData hd
    obtain ⟨helig, hmk⟩ := mem_validHoleData hvalid
    have hmem := mem_eligibleHoles.mp helig
    have hsize := hmem.2
    rw [sizeEligible, Bool.and_eq_true, decide_eq_true_iff, decide_eq_true_iff]
      at hsize
    refine ⟨hmem.1, ?_, hsize.1, hsize.2⟩
    conv_lhs => rw [hmk]
    rfl

/-! ### Evaluation lemmas for the concrete fixtures -/

theorem getHoleCacheKey_mk (env : TurfEnv) (h : LinearRing) :
    getHoleCacheKey env (mkHoleData env h).hole (mkHoleData env h).holeArea =
      holeKey env h := rfl

theorem uncachedData_singleton (env : TurfEnv) (cache : Cache) (h : LinearRing)
    (hs : sizeEligible (env.ringArea h) = true)
    (hc : cacheGet cache (holeKey env h) = none) :
    uncachedData env cache [h] = [(mkHoleData env h, holeKey env h)] := by
  rw [uncachedData, validHoleData, eligibleHoles]
  simp only [List.filter_cons, hs, if_true, List.filter_nil, List.map_cons,
    List.map_nil, List.filterMap_cons, List.filterMap_nil, getHoleCacheKey_mk, hc]

theorem cachedResults_singleton_miss (env : TurfEnv) (cache : Cache) (h : LinearRing)
    (hs : sizeEligible (env.ringArea h) = true)
    (hc : cacheGet cache (holeKey env h) = none) :
    cachedResults env cache [h] = [] := by
  rw [cachedResults, validHoleData, eligibleHoles]
  simp only [List.filter_cons, hs, if_true, List.filter_nil, List.map_cons,
    List.map_nil, List.filterMap_cons, List.filterMap_nil, getHoleCacheKey_mk, hc]

theorem uncachedData_singleton_hit (env : TurfEnv) (cache : Cache) (h : LinearRing)
    (b : Bool) (hs : sizeEligible (env.ringArea h) = true)
    (hc : cacheGet cache (holeKey env h) = some b) :
    uncachedData env cache [h] = [] := by
  rw [uncachedData, validHoleData, eligibleHoles]
  simp only [List.filter_cons, hs, if_true, List.filter_nil, List.map_cons,
    List.map_nil, List.filterMap_cons, List.filterMap_nil, getHoleCacheKey_mk, hc]

theorem cachedResults_singleton_hit (env : TurfEnv) (cache : Cache) (h : LinearRing)
    (b : Bool) (hs : sizeEligible (env.ringArea h) = true)
    (hc : cacheGet cache (holeKey env h) = some b) :
    cachedResults env cache [h] = [(mkHoleData env h, b)] := by
  rw [cachedResults, validHoleData, eligibleHoles]
  simp only [List.filter_cons, hs, if_true, List.filter_nil, List.map_cons,
    List.map_nil, List.filterMap_cons, List.filterMap_nil, getHoleCacheKey_mk, hc]

theorem uncachedData_pair (env : TurfEnv) (cache : Cache) (h : LinearRing)
    (hs : sizeEligible (env.ringArea h) = true)
    (hc : cacheGet cache (holeKey env h) = none) :
    uncachedData env cache [h, h] =
      [(mkHoleData env h, holeKey env h), (mkHoleData env h, holeKey env h)] := by
  rw [uncachedData, validHoleData, eligibleHoles]
  simp only [List.filter_cons, hs, if_true, List.filter_nil, List.map_cons,
    List.map_nil, List.filterMap_cons, List.filterMap_nil, getHoleCacheKey_mk, hc]

theorem sizeEligible_100 : sizeEligible 100 = true := by
  rw [sizeEligible, Bool.and_eq_true, decide_eq_true_iff, decide_eq_true_iff]
  norm_num

theorem sizeEligible_200 : sizeEligible 200 = true := by
  rw [sizeEligible, Bool.and_eq_true, decide_eq_true_iff, decide_eq_true_iff]
  norm_num

theorem holeKey_envStreets (r : LinearRing) : holeKey envStreets r = (0, 0, 100) := by
  norm_num [holeKey, getHoleCacheKey, envStreets, jsToFixed5, jsRound]

theorem holeKey_envNoStreets (r : LinearRing) :
    holeKey envNoStreets r = (0, 0, 100) := by
  norm_num [holeKey, getHoleCacheKey, envNoStreets, jsToFixed5, jsRound]

theorem holeKey_envFailure (r : LinearRing) : holeKey envFailure r = (0, 0, 100) := by
  norm_num [holeKey, getHoleCacheKey, envFailure, jsToFixed5, jsRound]
theorem holeRing_ne_holeRing2 : holeRing ≠ holeRing2 := by decide

theorem envTwo_area_holeRing : envTwo.ringArea holeRing = 100 := by
  show (if holeRing = holeRing2 then (200 : ℚ) else 100) = 100
  rw [if_neg holeRing_ne_holeRing2]

theorem envTwo_area_holeRing2 : envTwo.ringArea holeRing2 = 200 := by
  show (if holeRing2 = holeRing2 then (200 : ℚ) else 100) = 200
  rw [if_pos rfl]

theorem holeKey_envTwo_holeRing : holeKey envTwo holeRing = (0, 0, 100) := by
  have hc : envTwo.ringCentroid holeRing = (0, 0) := by
    show (if holeRing = holeRing2 then ((2 : ℚ), (2 : ℚ)) else (0, 0)) = (0, 0)
    rw [if_neg holeRing_ne_holeRing2]
  rw [holeKey, getHoleCacheKey, hc, envTwo_area_holeRing]
  norm_num [jsToFixed5, jsRound]

theorem holeKey_envTwo_holeRing2 : holeKey envTwo holeRing2 = (200000, 200000, 200) := by
  have hc : envTwo.ringCentroid holeRing2 = (2, 2) := by
    show (if holeRing2 = holeRing2 then ((2 : ℚ), (2 : ℚ)) else (0, 0)) = (2, 2)
    rw [if_pos rfl]
  rw [holeKey, getHoleCacheKey, hc, envTwo_area_holeRing2]
  norm_num [jsToFixed5, jsRound]

/-! ### Facts about `chunksOf3` -/

theorem chunksOf3_mem_length_le {α : Type} (l : List α) :
    ∀ g ∈ chunksOf3 l, g.length ≤ 3 := by
  suffices H : ∀ (k : ℕ) (l : List α), l.length ≤ k → ∀ g ∈ chunksOf3 l, g.length ≤ 3 from
    H l.length l le_rfl
  intro k
  induction k with
  | zero =>
    intro l hl g hg
    have : l = [] := List.eq_nil_of_length_eq_zero (by omega)
    subst this
    rw [chunksOf3_nil] at hg
    cases hg
  | succ k ih =>
    intro l hl g hg
    match l with
    | [] =>
      rw [chunksOf3_nil] at hg
      cases hg
    | a :: rest =>
      rw [chunksOf3_cons] at hg
      rcases List.mem_cons.mp hg with rfl | hmem
      · rw [List.length_take]
        exact min_le_left 3 _
      · refine ih ((a :: rest).drop 3) ?_ g hmem
        simp only [List.length_drop, List.length_cons]
        simp only [List.length_cons] at hl
        omega

theorem chunksOf3_flatten {α : Type} (l : List α) : (chunksOf3 l).flatten = l := by
  suffices H : ∀ (k : ℕ) (l : List α), l.length ≤ k → (chunksOf3 l).flatten = l from
    H l.length l le_rfl
  intro k
  induction k with
  | zero =>
    intro l hl
    have : l = [] := List.eq_nil_of_length_eq_zero (by omega)
    subst this
    rw [chunksOf3_nil]
    rfl
  | succ k ih =>
    intro l hl
    match l with
    | [] =>
      rw [chunksOf3_nil]
      rfl
    | a :: rest =>
      rw [chunksOf3_cons, List.flatten_cons]
      rw [ih ((a :: rest).drop 3) (by
        simp only [List.length_drop, List.length_cons]
        simp only [List.length_cons] at hl
        omega)]
      exact List.take_append_drop 3 (a :: rest)

theorem chunksOf3_length {α : Type} (l : List α) :
    (chunksOf3 l).length = (l.length + 2) / 3 := by
  suffices H : ∀ (k : ℕ) (l : List α), l.length ≤ k →
      (chunksOf3 l).length = (l.length + 2) / 3 from
    H l.length l le_rfl
  intro k
  induction k with
  | zero =>
    intro l hl
    have : l = [] := List.eq_nil_of_length_eq_zero (by omega)
    subst this
    rw [chunksOf3_nil]
    simp
  | succ k ih =>
    intro l hl
    match l with
    | [] =>
      rw [chunksOf3_nil]
      simp
    | a :: rest =>
      rw [chunksOf3_cons, List.length_cons]
      rw [ih ((a :: rest).drop 3) (by
        simp only [List.length_drop, List.length_cons]
        simp only [List.length_cons] at hl
        omega)]
      simp only [List.length_drop, List.length_cons]
      omega
/-! ### Concrete single-hole strict runs -/

theorem valid_singleton_not_empty (env : TurfEnv) (h : LinearRing)
    (hs : sizeEligible (env.ringArea h) = true) :
    (validHoleData env [h]).isEmpty = false := by
  rw [validHoleData, eligibleHoles]
  simp [List.filter_cons, hs]

theorem ppc_events_singleton_miss (env : TurfEnv) (cache : Cache) (h : LinearRing)
    (hs : sizeEligible (env.ringArea h) = true)
    (hc : cacheGet cache (holeKey env h) = none) (o : LinearRing) :
    (processPolygonCoordinates env false [o, h] cache).events =
      [foundMsg 1, checkingMsg 1, batchMsg 1 1 1,
        Event.oracleCall (env.ringBBox h),
        doneMsg (if oracleAnswer env (env.ringBBox h) then 0 else 1)
          (if oracleAnswer env (env.ringBBox h) then 1 else 0)] := by
  rw [ppc_events env cache o [h] (valid_singleton_not_empty env h hs),
    cachedResults_singleton_miss env cache h hs hc,
    uncachedData_singleton env cache h hs hc]
  simp only [List.isEmpty_nil, if_true, List.isEmpty_cons, Bool.false_eq_true, if_false]
  rw [chunkEvents_cons]
  simp only [List.take_succ_cons, List.take_nil, List.drop_succ_cons, List.drop_nil,
    chunkEvents_nil]
  simp only [allResultsOf, freshResults_eq, cachedResults_singleton_miss env cache h hs hc,
    uncachedData_singleton env cache h hs hc, List.map_cons, List.map_nil,
    List.nil_append, List.length_cons, List.length_nil, mkHoleData]
  cases hans : oracleAnswer env (env.ringBBox h) <;>
    simp [hans, List.filter_cons, List.length_nil, List.length_cons]

theorem ppc_coords_singleton_miss (env : TurfEnv) (cache : Cache) (h : LinearRing)
    (hs : sizeEligible (env.ringArea h) = true)
    (hc : cacheGet cache (holeKey env h) = none) (o : LinearRing) :
    (processPolygonCoordinates env false [o, h] cache).coords =
      if oracleAnswer env (env.ringBBox h) then [o, h] else [o] := by
  rw [ppc_coords]
  have hinel : ineligibleHoles env [h] = [] := by
    rw [ineligibleHoles]
    simp [List.filter_cons, hs]
  rw [hinel, keptHoles_eval, cachedResults_singleton_miss env cache h hs hc,
    uncachedData_singleton env cache h hs hc]
  simp only [List.map_cons, List.map_nil, List.nil_append, mkHoleData]
  cases hans : oracleAnswer env (env.ringBBox h) <;>
    simp [hans, List.filter_cons]
/-- C1 witness: in a concrete strict run with one 100 m² hole, the hole is
a cache-miss batch candidate, and the theorem yields its strict size
bounds. -/
theorem claim_C1_witness :
    50 < envStreets.ringArea (mkHoleData envStreets holeRing).hole ∧
      envStreets.ringArea (mkHoleData envStreets holeRing).hole < 5000000 := by
  have hmem : (mkHoleData envStreets holeRing, holeKey envStreets holeRing) ∈
      uncachedData envStreets [] [holeRing] := by
    rw [uncachedData_singleton envStreets [] holeRing sizeEligible_100 rfl]
    exact List.mem_singleton.mpr rfl
  have h := (claim_C1 envStreets false [] sqRing [holeRing]).2.2 _ hmem
  exact ⟨h.2.2.1, h.2.2.2⟩

/-- C7: ring 0 of the input is preserved verbatim as ring 0 of the output,
and the output ring list is exactly the outer ring, then the
size-ineligible holes (retained immediately, in original order), then the
eligible-but-kept holes; every kept hole is a size-eligible hole of the
input. -/
theorem claim_C7 (env : TurfEnv) (skip : Bool) (cache : Cache) (o : LinearRing)
    (holes : List LinearRing) :
    (processPolygonCoordinates env skip (o :: holes) cache).coords =
        o :: (ineligibleHoles env holes ++ keptHoles env skip cache holes) ∧
      ∀ r ∈ keptHoles env skip cache holes, r ∈ eligibleHoles env holes :=
  ⟨ppc_coords env skip cache o holes, fun _ hr => mem_keptHoles hr⟩

/-- C7 witness: a concrete strict run with one street-bearing hole keeps
the hole directly after the outer ring. -/
theorem claim_C7_witness :
    (processPolygonCoordinates envStreets false [sqRing, holeRing] []).coords =
        [sqRing, holeRing] ∧
      holeRing ∈ eligibleHoles envStreets [holeRing] := by
  have hkept : keptHoles envStreets false [] [holeRing] = [holeRing] := by
    rw [keptHoles_eval, cachedResults_singleton_miss envStreets [] holeRing
      sizeEligible_100 rfl, uncachedData_singleton envStreets [] holeRing
      sizeEligible_100 rfl]
    rfl
  have h := claim_C7 envStreets false [] sqRing [holeRing]
  refine ⟨?_, h.2 holeRing (by rw [hkept]; exact List.mem_singleton.mpr rfl)⟩
  rw [h.1, hkept]
  decide

/-- C2: with `skipStreetCheck = true`, `fillBlocks` drops every
size-eligible hole of every constituent polygon (whatever the cache holds,
including cached street answers), leaves the cache unchanged, issues zero
oracle queries, and does not emit the initial "Analyzing cleared area
geometry..." status. -/
theorem claim_C2 (env : TurfEnv) (g : Geometry) (cache : Cache) :
    (fillBlocks env (some g) ⟨true⟩ cache).geometry =
        some (fillBlocksSkipSpec env g) ∧
      (fillBlocks env (some g) ⟨true⟩ cache).cache = cache ∧
      oracleCalls (fillBlocks env (some g) ⟨true⟩ cache).events = [] ∧
      analyzingMsg ∉ (fillBlocks env (some g) ⟨true⟩ cache).events := by
  have hne : analyzingMsg ≠ noValidMsg := by decide
  match g with
  | .polygon coords =>
    obtain ⟨hc, hcache, hev⟩ := ppc_skip_parts env cache coords
    simp only [fillBlocks, fillBlocksSkipSpec, Bool.not_true, Bool.false_eq_true,
      if_false, List.nil_append]
    refine ⟨by rw [hc], hcache, oracleCalls_eq_nil_of_noValid hev, ?_⟩
    intro hmem
    exact hne (hev _ hmem)
  | .multiPolygon polys =>
    obtain ⟨hc, hcache, hev⟩ := multiPolyLoop_skip env polys.length polys 0 cache
    simp only [fillBlocks, fillBlocksSkipSpec, Bool.not_true, Bool.false_eq_true,
      if_false, List.nil_append]
    refine ⟨by rw [hc], hcache, oracleCalls_eq_nil_of_noValid hev, ?_⟩
    intro hmem
    exact hne (hev _ hmem)
  | .otherType =>
    refine ⟨rfl, rfl, rfl, ?_⟩
    intro hmem
    simp only [fillBlocks, Bool.not_true, Bool.false_eq_true, if_false] at hmem
    cases hmem

/-- C2 witness: a concrete skip-mode run on a polygon with one
size-eligible hole whose cached answer says streets are present still
drops the hole. -/
theorem claim_C2_witness :
    (fillBlocks envStreets (some (Geometry.polygon [sqRing, holeRing])) ⟨true⟩
        [((0, 0, 100), true)]).geometry = some (Geometry.polygon [sqRing]) := by
  rw [(claim_C2 envStreets (Geometry.polygon [sqRing, holeRing])
    [((0, 0, 100), true)]).1]
  decide
/-- C3 counterexample: within one strict invocation, two size-eligible
holes with the identical spatial key are both cache misses, and the run
issues one oracle call for each of them — two calls in total for that key
in the same process lifetime, refuting "at most one". -/
theorem claim_C3_counterexample :
    sizeEligible (envStreets.ringArea holeRing) = true ∧
      (uncachedData envStreets [] [holeRing, holeRing]).map (fun dk => dk.2) =
        [(0, 0, 100), (0, 0, 100)] ∧
      oracleCalls (processPolygonCoordinates envStreets false
          [sqRing, holeRing, holeRing] []).events =
        [(0, 0, 1, 1), (0, 0, 1, 1)] := by
  have hp := uncachedData_pair envStreets [] holeRing sizeEligible_100 rfl
  refine ⟨sizeEligible_100, ?_, ?_⟩
  · rw [hp, holeKey_envStreets]
    rfl
  · rw [ppc_calls, hp]
    rfl

/-- C3 (amended): an oracle call is only ever issued for a spatial key
absent from the cache at the start of the invocation; once a strict
invocation has processed a size-eligible hole, no later invocation issues
any call for that hole's key (it is served from the cache); and cache-hit
candidates are resolved before the batch phase, their count reported by a
single "Using cached results for N blocks..." status that precedes every
oracle query of the run.  (Within a single invocation, however, several
cache-miss holes sharing one key each issue their own call — see the
counterexample.) -/
theorem claim_C3 (env : TurfEnv) (cache : Cache) (o1 : LinearRing)
    (holes1 holes2 : List LinearRing) :
    (∀ d ∈ uncachedData env cache holes1, cacheGet cache d.2 = none) ∧
      (∀ h1 ∈ eligibleHoles env holes1,
        ∀ d ∈ uncachedData env
            (processPolygonCoordinates env false (o1 :: holes1) cache).cache holes2,
          d.2 ≠ holeKey env h1) ∧
      ((cachedResults env cache holes1).isEmpty = false →
        (processPolygonCoordinates env false (o1 :: holes1) cache).events =
          foundMsg holes1.length ::
            usingCachedMsg (cachedResults env cache holes1).length ::
            ((if (uncachedData env cache holes1).isEmpty then []
              else checkingMsg (uncachedData env cache holes1).length ::
                chunkEvents env (((uncachedData env cache holes1).length + 2) / 3) 1
                  (uncachedData env cache holes1)) ++
              [doneMsg ((allResultsOf env cache holes1).filter (fun r => !r.2)).length
                ((allResultsOf env cache holes1).filter (fun r => r.2)).length])) := by
  refine ⟨fun d hd => (mem_uncachedData hd).2.2, ?_, ?_⟩
  · intro h1 hh1 d hd heq
    have hsome := holeKey_isSome_final env cache o1 holes1 hh1
    have hnone := (mem_uncachedData hd).2.2
    rw [heq] at hnone
    rw [hnone] at hsome
    cases hsome
  · intro hc
    have hv : (validHoleData env holes1).isEmpty = false := by
      cases hvv : (validHoleData env holes1).isEmpty
      · rfl
      · rw [cachedResults_of_valid_empty env cache holes1 hvv] at hc
        cases hc
    rw [ppc_events env cache o1 holes1 hv, hc]
    simp only [Bool.false_eq_true, if_false, List.singleton_append]

/-- C3 witness: a strict run resolves a 100 m² hole; a second strict run
containing a distinct-key candidate never queries the first hole's key. -/
theorem claim_C3_witness :
    holeRing ∈ eligibleHoles envTwo [holeRing] ∧
      (mkHoleData envTwo holeRing2, holeKey envTwo holeRing2) ∈
        uncachedData envTwo
          (processPolygonCoordinates envTwo false [sqRing, holeRing] []).cache
          [holeRing2] ∧
      holeKey envTwo holeRing2 ≠ holeKey envTwo holeRing := by
  have hs1 : sizeEligible (envTwo.ringArea holeRing) = true := by
    rw [envTwo_area_holeRing]
    exact sizeEligible_100
  have hs2 : sizeEligible (envTwo.ringArea holeRing2) = true := by
    rw [envTwo_area_holeRing2]
    exact sizeEligible_200
  have hmem1 : holeRing ∈ eligibleHoles envTwo [holeRing] := by
    rw [eligibleHoles]
    simp [List.filter_cons, hs1]
  have hcache : (processPolygonCoordinates envTwo false [sqRing, holeRing] []).cache =
      [((0, 0, 100), true)] := by
    rw [ppc_cache]
    simp only [Bool.false_eq_true, if_false, List.append_nil]
    rw [uncachedData_singleton envTwo [] holeRing hs1 rfl]
    simp only [List.map_cons, List.map_nil, List.reverse_singleton, holeKey_envTwo_holeRing]
    rfl
  have hget : cacheGet [((0, 0, 100), true)] (holeKey envTwo holeRing2) = none := by
    rw [holeKey_envTwo_holeRing2]
    decide
  have hmem2 : (mkHoleData envTwo holeRing2, holeKey envTwo holeRing2) ∈
      uncachedData envTwo
        (processPolygonCoordinates envTwo false [sqRing, holeRing] []).cache
        [holeRing2] := by
    rw [hcache, uncachedData_singleton envTwo [((0, 0, 100), true)] holeRing2 hs2 hget]
    exact List.mem_singleton.mpr rfl
  exact ⟨hmem1, hmem2,
    (claim_C3 envTwo [] sqRing [holeRing] [holeRing2]).2.1 holeRing hmem1
      (mkHoleData envTwo holeRing2, holeKey envTwo holeRing2) hmem2⟩
/-- C4 counterexample: in a concrete strict run with one cache-miss
candidate, the batch progress message "Processing batch 1/1 (1 blocks)..."
is emitted at trace position 2, strictly before the group's only oracle
call at position 3 — the message precedes the group instead of following
its completion as the claim states. -/
theorem claim_C4_counterexample :
    (processPolygonCoordinates envNoStreets false [sqRing, holeRing] []).events =
        [foundMsg 1, checkingMsg 1, batchMsg 1 1 1, Event.oracleCall (0, 0, 1, 1),
          doneMsg 1 0] ∧
      (processPolygonCoordinates envNoStreets false [sqRing, holeRing] []).events.get? 2 =
        some (batchMsg 1 1 1) ∧
      (processPolygonCoordinates envNoStreets false [sqRing, holeRing] []).events.get? 3 =
        some (Event.oracleCall (0, 0, 1, 1)) ∧
      oracleCalls ((processPolygonCoordinates envNoStreets false
        [sqRing, holeRing] []).events.take 3) = [] := by
  have h := ppc_events_singleton_miss envNoStreets [] holeRing sizeEligible_100 rfl sqRing
  have hans : oracleAnswer envNoStreets (envNoStreets.ringBBox holeRing) = false := rfl
  rw [hans] at h
  rw [h]
  exact ⟨rfl, rfl, rfl, rfl⟩

/-- C4 (amended): within one invocation the cache-miss candidates are
partitioned in order into groups of at most 3 (`chunksOf3`); the batch
loop processes the groups strictly sequentially, the total batch count is
⌈n/3⌉, and each group's trace is its progress message (reporting batch
index, total batches and group size) followed — not preceded — by that
group's oracle queries. -/
theorem claim_C4 (env : TurfEnv) (cache : Cache) (holes : List LinearRing) :
    (∀ g ∈ chunksOf3 (uncachedData env cache holes), g.length ≤ 3) ∧
      (chunksOf3 (uncachedData env cache holes)).flatten =
        uncachedData env cache holes ∧
      (chunksOf3 (uncachedData env cache holes)).length =
        ((uncachedData env cache holes).length + 2) / 3 ∧
      (batchLoop env (uncachedData env cache holes) 0 cache).events =
        chunkEvents env (((uncachedData env cache holes).length + 2) / 3) 1
          (uncachedData env cache holes) := by
  refine ⟨chunksOf3_mem_length_le _, chunksOf3_flatten _, chunksOf3_length _, ?_⟩
  have h := batchLoop_events env (uncachedData env cache holes) 0 cache
  simpa using h

/-- C4 witness: the single cache-miss candidate of a concrete run forms
one group, whose size is within the bound. -/
theorem claim_C4_witness :
    [(mkHoleData envStreets holeRing, holeKey envStreets holeRing)] ∈
        chunksOf3 (uncachedData envStreets [] [holeRing]) ∧
      ([(mkHoleData envStreets holeRing, holeKey envStreets holeRing)] :
        List (HoleData × CacheKey)).length ≤ 3 := by
  have hmem : [(mkHoleData envStreets holeRing, holeKey envStreets holeRing)] ∈
      chunksOf3 (uncachedData envStreets [] [holeRing]) := by
    rw [uncachedData_singleton envStreets [] holeRing sizeEligible_100 rfl,
      chunksOf3_cons]
    exact List.mem_cons_self _ _
  exact ⟨hmem, (claim_C4 envStreets [] [holeRing]).1 _ hmem⟩

/-- C5 counterexample: the oracle failure fallback is hardcoded, not a
configuration option: on a failing query the engine resolves the candidate
to `false` and fills the hole under *every* value of its options record
(`skipStreetCheck` is the only option), whereas the spec-modelled
configurable check with fail-safe default `true` would answer `true`
(keep the hole). -/
theorem claim_C5_counterexample :
    (checkIfBlockHasStreets envFailure (0, 0, 1, 1)).1 = false ∧
      (checkIfBlockHasStreetsSpec true envFailure (0, 0, 1, 1)).1 = true ∧
      (fillBlocks envFailure (some (Geometry.polygon [sqRing, holeRing])) ⟨false⟩
        []).geometry = some (Geometry.polygon [sqRing]) ∧
      (fillBlocks envFailure (some (Geometry.polygon [sqRing, holeRing])) ⟨true⟩
        []).geometry = some (Geometry.polygon [sqRing]) := by
  refine ⟨rfl, rfl, ?_, ?_⟩
  · show some (Geometry.polygon
      (processPolygonCoordinates envFailure false [sqRing, holeRing] []).coords) =
      some (Geometry.polygon [sqRing])
    rw [ppc_coords_singleton_miss envFailure [] holeRing sizeEligible_100 rfl sqRing]
    rfl
  · show some (Geometry.polygon
      (processPolygonCoordinates envFailure true [sqRing, holeRing] []).coords) =
      some (Geometry.polygon [sqRing])
    rw [(ppc_skip_parts envFailure [] [sqRing, holeRing]).1]
    decide

/-- C5 (amended): a failing Street Oracle query does not raise to the
caller: `checkIfBlockHasStreets` returns normally and resolves the
candidate with the hardcoded fail-safe default `false` (the code comments
call it demo mode and note production should fail closed); the default is
not an engine configuration option. -/
theorem claim_C5 (env : TurfEnv) (bb : BBox) (h : env.oracle bb = .failure) :
    checkIfBlockHasStreets env bb = (false, [Event.oracleCall bb]) := by
  rw [checkIfBlockHasStreets, h]

/-- C5 witness: a concrete failing query resolves to `false` without
raising. -/
theorem claim_C5_witness :
    envFailure.oracle (0, 0, 1, 1) = .failure ∧
      checkIfBlockHasStreets envFailure (0, 0, 1, 1) =
        (false, [Event.oracleCall (0, 0, 1, 1)]) :=
  ⟨rfl, claim_C5 envFailure (0, 0, 1, 1) rfl⟩

/-- C6: when the existing area is present and the union operator throws,
`mergeAreas` catches the failure, logs it, and returns the existing
geometry unchanged; when the existing area is absent it returns the new
argument's geometry unchanged. -/
theorem claim_C6 (menv : MergeEnv) (newPolygon : GeoInput) :
    (∀ ea : GeoInput,
        menv.union ea.asGeometry newPolygon.asGeometry = .error () →
          mergeAreas menv (some ea) newPolygon =
            (ea.asGeometry, [.errorLog "Merge failed"])) ∧
      mergeAreas menv none newPolygon = (newPolygon.asGeometry, []) := by
  constructor
  · intro ea hu
    rw [mergeAreas]
    rw [hu]
  · rfl

/-- C6 witness: a concrete always-throwing union environment returns the
existing geometry with the log, and the absent-existing case returns the
new geometry. -/
theorem claim_C6_witness :
    mergeAreas menvFail (some (GeoInput.feature (Geometry.polygon [sqRing])))
        (GeoInput.bare (Geometry.polygon [holeRing])) =
      (Geometry.polygon [sqRing], [.errorLog "Merge failed"]) ∧
      mergeAreas menvFail none (GeoInput.bare (Geometry.polygon [holeRing])) =
        (Geometry.polygon [holeRing], []) := by
  have h := claim_C6 menvFail (GeoInput.bare (Geometry.polygon [holeRing]))
  exact ⟨h.1 (GeoInput.feature (Geometry.polygon [sqRing])) rfl, h.2⟩
/-- C8: the fill decision never loses area: for every Polygon or
MultiPolygon (and trivially any other geometry), under nonnegative ring
areas, the area of the `fillBlocks` output is at least the area of the
input — only hole areas (which are subtracted) can be removed, and outer
rings are untouched. -/
theorem claim_C8 (env : TurfEnv) (opts : Options) (cache : Cache) (g g' : Geometry)
    (hn : ∀ r, 0 ≤ env.ringArea r)
    (hout : (fillBlocks env (some g) opts cache).geometry = some g') :
    getArea env g ≤ getArea env g' := by
  match g with
  | .polygon coords =>
    simp only [fillBlocks, Option.some.injEq] at hout
    subst hout
    exact ppc_area env opts.skipStreetCheck cache hn coords
  | .multiPolygon polys =>
    simp only [fillBlocks, Option.some.injEq] at hout
    subst hout
    simp only [getArea]
    exact multiPolyLoop_area env opts.skipStreetCheck polys.length hn polys 0 cache
  | .otherType =>
    simp only [fillBlocks, Option.some.injEq] at hout
    subst hout
    exact le_refl _

/-- C8 witness: with an all-zero area environment (trivially nonnegative)
and a one-ring polygon, the output area is at least the input area. -/
theorem claim_C8_witness :
    (∀ r, 0 ≤ envZero.ringArea r) ∧
      getArea envZero (Geometry.polygon [sqRing]) ≤
        getArea envZero (Geometry.polygon [sqRing]) :=
  ⟨fun _ => le_refl 0,
    claim_C8 envZero ⟨false⟩ [] (Geometry.polygon [sqRing])
      (Geometry.polygon [sqRing]) (fun _ => le_refl 0) rfl⟩

/-- C9 counterexample: on a single-ring polygon the strict run emits only
the initial "Analyzing cleared area geometry..." status; no terminal
"Block analysis complete. Filled: 0, Kept: 0" status is emitted, refuting
the claimed terminal report. -/
theorem claim_C9_counterexample :
    (fillBlocks envNoStreets (some (Geometry.polygon [sqRing])) ⟨false⟩ []).events =
        [analyzingMsg] ∧
      doneMsg 0 0 ∉
        (fillBlocks envNoStreets (some (Geometry.polygon [sqRing])) ⟨false⟩ []).events := by
  refine ⟨rfl, ?_⟩
  decide

/-- C9 (amended): for a polygon with a single outer ring and no holes,
the strict `fillBlocks` returns the geometry with the identical ring set,
leaves the cache unchanged, issues zero oracle calls, and emits only the
initial "Analyzing cleared area geometry..." status — no terminal
filled/kept report. -/
theorem claim_C9 (env : TurfEnv) (cache : Cache) (r : LinearRing) :
    fillBlocks env (some (Geometry.polygon [r])) ⟨false⟩ cache =
        ⟨some (Geometry.polygon [r]), cache, [analyzingMsg]⟩ ∧
      oracleCalls (fillBlocks env (some (Geometry.polygon [r])) ⟨false⟩ cache).events =
        [] := by
  constructor
  · simp [fillBlocks, ppc_single]
  · simp [fillBlocks, ppc_single, oracleCalls, analyzingMsg]

/-- C10: a null/undefined geometry and a geometry of any type other than
Polygon/MultiPolygon are returned unchanged by `fillBlocks`, with zero
oracle calls and no cache writes, under either option setting. -/
theorem claim_C10 (env : TurfEnv) (opts : Options) (cache : Cache) :
    fillBlocks env none opts cache = ⟨none, cache, []⟩ ∧
      (fillBlocks env (some Geometry.otherType) opts cache).geometry =
        some Geometry.otherType ∧
      (fillBlocks env (some Geometry.otherType) opts cache).cache = cache ∧
      oracleCalls (fillBlocks env (some Geometry.otherType) opts cache).events = [] := by
  obtain ⟨skip⟩ := opts
  cases skip <;> exact ⟨rfl, rfl, rfl, rfl⟩

end TrailBlazer
